import Mathlib

/-!
Verification development for the maintsight core pipeline: commit-history
aggregation, feature engineering, and tree-ensemble scoring.

JavaScript `number` values are modelled as exact rationals (`ℚ`); epoch
timestamps (milliseconds) as integers (`ℤ`).  The two transcendental
library calls of the scorer, `Math.exp` and `Math.sqrt`, are passed in as
explicit function parameters so that every definition stays computable;
theorems that depend on their behaviour take the relevant property of the
parameter as a hypothesis (`Math.sqrt 0 = 0`, and so on).
-/

set_option maxHeartbeats 1000000

namespace Maintsight

/-- Risk category labels (risk-category enum). -/
inductive RiskCategory where
  | improved
  | stable
  | degraded
  | severely_degraded
deriving DecidableEq, Repr

/-- One tree of the ensemble (XGBoostTree interface), restricted to the five
array fields the scorer reads. -/
structure XGBoostTree where
  base_weights : List ℚ
  left_children : List ℤ
  right_children : List ℤ
  split_indices : List ℕ
  split_conditions : List ℚ
deriving DecidableEq, Repr

/-- The loaded model, flattened to the four pieces `XGBoostPredictor` reads:
`feature_names` at top level, the copy nested under
`model_data.learner.feature_names`, the string
`model_data.learner.learner_model_param.base_score`, and
`model_data.learner.gradient_booster.model.trees`.  Every one of these is
reached through optional chaining in the source, hence `Option` here. -/
structure XGBoostModel where
  feature_names : Option (List String)
  nested_feature_names : Option (List String)
  base_score : Option String
  trees : Option (List XGBoostTree)
deriving Repr

/-- The character class of the base-score regex `[-\d.eE]`. -/
def isBaseScoreChar (c : Char) : Bool :=
  c = '-' || c.isDigit || c = '.' || c = 'e' || c = 'E'

/-- Search for the regex `\[([-\d.eE]+)\]` and return the first capture.
Since the class excludes `]`, the greedy group runs to the first `]` after
an opening `[`, and a candidate start position matches exactly when that
run is nonempty and immediately followed by `]`. -/
def matchBracketNum : List Char → Option (List Char)
  | [] => none
  | c :: rest =>
    if c = '[' then
      let body := rest.takeWhile isBaseScoreChar
      (match rest.dropWhile isBaseScoreChar with
       | d :: _ =>
         if d = ']' then
           if body.isEmpty then matchBracketNum rest else some body
         else matchBracketNum rest
       | [] => matchBracketNum rest)
    else matchBracketNum rest

def digitVal (c : Char) : ℕ := c.toNat - 48

def natOfDigits (ds : List Char) : ℕ :=
  ds.foldl (fun n c => 10 * n + digitVal c) 0

/-- The optional exponent tail of a JS float literal: `(e|E)` has already
been consumed; a sign followed by no digits leaves the exponent at 0
(`parseFloat` drops a trailing malformed exponent). -/
def parseExpPart (cs : List Char) : ℤ :=
  let signed : Bool × List Char :=
    match cs with
    | '-' :: rest => (true, rest)
    | '+' :: rest => (false, rest)
    | _ => (false, cs)
  let ds := signed.2.takeWhile Char.isDigit
  if ds.isEmpty then 0
  else if signed.1 then -(natOfDigits ds : ℤ) else (natOfDigits ds : ℤ)

/-- `parseFloat` on the captured base-score body, as an exact rational.
`none` models a NaN result (no digits in the mantissa).  The model covers
sign, integer part, fraction, and exponent; the longest-valid-prefix rule
of `parseFloat` is reflected by ignoring whatever follows the parsed
prefix.  (`NaN` propagating into the score has no rational counterpart;
the caller substitutes the default, a path no claim exercises.) -/
def jsParseFloat (cs : List Char) : Option ℚ :=
  let signed : Bool × List Char :=
    match cs with
    | '-' :: rest => (true, rest)
    | '+' :: rest => (false, rest)
    | _ => (false, cs)
  let intPart := signed.2.takeWhile Char.isDigit
  let cs2 := signed.2.dropWhile Char.isDigit
  let fracTail : List Char × List Char :=
    match cs2 with
    | '.' :: rest => (rest.takeWhile Char.isDigit, rest.dropWhile Char.isDigit)
    | _ => ([], cs2)
  if intPart.isEmpty && fracTail.1.isEmpty then none
  else
    let mant : ℚ :=
      (natOfDigits intPart : ℚ) + (natOfDigits fracTail.1 : ℚ) / ((10 : ℚ) ^ fracTail.1.length)
    let e : ℤ :=
      match fracTail.2 with
      | 'e' :: rest => parseExpPart rest
      | 'E' :: rest => parseExpPart rest
      | _ => 0
    let v := mant * (10 : ℚ) ^ e
    some (if signed.1 then -v else v)

/-- The base-score extraction at the top of `predictSingle`: default 0.5,
overridden by the bracket-wrapped literal parsed from
`learner_model_param.base_score` when present and matched. -/
def baseScore (m : XGBoostModel) : ℚ :=
  match m.base_score with
  | none => 1/2
  | some s =>
    match matchBracketNum s.toList with
    | none => 1/2
    | some body => (jsParseFloat body).getD (1/2)

/-- The `while (true)` descent of `XGBoostPredictor.predictTree`, made total
with fuel: `none` models nontermination on a malformed (cyclic) tree, a
documented precondition violation.  Array reads use `getD` with default 0;
source trees are assumed well formed so reads stay in bounds. -/
def predictTreeAux (t : XGBoostTree) (features : List ℚ) : ℕ → ℕ → Option ℚ
  | 0, _ => none
  | fuel + 1, nodeId =>
    if t.left_children.getD nodeId 0 = -1 then
      some (t.base_weights.getD nodeId 0)
    else
      if features.getD (t.split_indices.getD nodeId 0) 0 <
          t.split_conditions.getD nodeId 0 then
        predictTreeAux t features fuel (t.left_children.getD nodeId 0).toNat
      else
        predictTreeAux t features fuel (t.right_children.getD nodeId 0).toNat

/-- `XGBoostPredictor.predictSingle`.  `e` stands for `Math.exp`.  The
zero-trees branch returns the base score directly (the source returns
before the sigmoid line); otherwise every tree contribution is added onto
the base score and the logistic transform `1 / (1 + e (-score))` is
applied. -/
def predictSingle (e : ℚ → ℚ) (fuel : ℕ) (m : XGBoostModel) (features : List ℚ) : Option ℚ :=
  let score := baseScore m
  let trees := m.trees.getD []
  if trees.isEmpty then some score
  else
    match trees.mapM (fun t => predictTreeAux t features fuel 0) with
    | none => none
    | some contribs => some (1 / (1 + e (-(contribs.foldl (· + ·) score))))

/-- `XGBoostPredictor.calibratePredictions`.  `sqrt` stands for
`Math.sqrt`; the source compares `rawStd > 0` on the square root of the
population variance. -/
def calibratePredictions (sqrt : ℚ → ℚ) (predictions : List ℚ) : List ℚ :=
  let TRAIN_MEAN : ℚ := -11/1000
  let TRAIN_STD : ℚ := 82/1000
  let TRAIN_MIN : ℚ := -531/1000
  let TRAIN_MAX : ℚ := 566/1000
  let rawMean : ℚ := predictions.sum / (predictions.length : ℚ)
  let rawStd : ℚ := sqrt ((predictions.map (fun pred => (pred - rawMean) ^ 2)).sum /
    (predictions.length : ℚ))
  if 0 < rawStd then
    predictions.map (fun pred =>
      let zScore := (pred - rawMean) / rawStd
      let scaled := zScore * TRAIN_STD + TRAIN_MEAN
      max (TRAIN_MIN - 1/10) (min (TRAIN_MAX + 1/10) scaled))
  else
    predictions.map (fun _ => TRAIN_MEAN)

/-- `XGBoostPredictor.getRiskCategory`. -/
def getRiskCategory (score : ℚ) : RiskCategory :=
  if score < 0 then .improved
  else if score ≤ 1/10 then .stable
  else if score ≤ 2/10 then .degraded
  else .severely_degraded

/-- `CommitData`: the per-file record produced by the aggregator.  The
thirteen derived fields added by `FeatureEngineer.transform` are optional
in the interface and absent on aggregator output, hence `Option ℚ`. -/
structure CommitData where
  module : String
  filename : String
  repo_name : String
  commits : ℚ
  authors : ℚ
  author_names : List String
  lines_added : ℚ
  lines_deleted : ℚ
  churn : ℚ
  bug_commits : ℚ
  refactor_commits : ℚ
  feature_commits : ℚ
  lines_per_author : ℚ
  churn_per_commit : ℚ
  bug_ratio : ℚ
  days_active : ℚ
  commits_per_day : ℚ
  created_at : ℤ
  last_modified : ℤ
  net_lines : Option ℚ := none
  code_stability : Option ℚ := none
  is_high_churn_commit : Option ℚ := none
  bug_commit_rate : Option ℚ := none
  commits_squared : Option ℚ := none
  author_concentration : Option ℚ := none
  lines_per_commit : Option ℚ := none
  churn_rate : Option ℚ := none
  modification_ratio : Option ℚ := none
  churn_per_author : Option ℚ := none
  deletion_rate : Option ℚ := none
  commit_density : Option ℚ := none
  degradation_days : Option ℚ := none
deriving DecidableEq, Repr

/-- The body of the `data.map` in `FeatureEngineer.transform`.  The
`!== undefined` guards of the source always hold here: the required base
fields of `CommitData` are non-optional, so each of the thirteen derived
fields is set unconditionally. -/
def transformRecord (record : CommitData) : CommitData :=
  { record with
    net_lines := some (record.lines_added - record.lines_deleted)
    code_stability := some (record.churn / (record.lines_added + 1))
    is_high_churn_commit := some (if record.churn_per_commit > 100 then 1 else 0)
    bug_commit_rate := some (record.bug_commits / (record.commits + 1))
    commits_squared := some (record.commits * record.commits)
    author_concentration := some (1 / (record.authors + 1))
    lines_per_commit := some (record.lines_added / (record.commits + 1))
    churn_rate := some (record.churn / (record.days_active + 1))
    modification_ratio := some (record.lines_deleted / (record.lines_added + 1))
    churn_per_author := some (record.churn / (record.authors + 1))
    deletion_rate := some (record.lines_deleted /
      (record.lines_added + record.lines_deleted + 1))
    commit_density := some (record.commits / (record.days_active + 1))
    degradation_days := some record.days_active }

/-- `FeatureEngineer.transform`. -/
def transform (data : List CommitData) : List CommitData :=
  data.map transformRecord

/-- `FeatureEngineer.extractFeatureVector`: the fixed 26-entry order.  The
`x || 0` fallbacks of the last thirteen entries are `Option.getD 0` here
(`x || 0` also maps an actual 0 to 0, so the two coincide on rationals). -/
def extractFeatureVector (features : CommitData) : List ℚ :=
  [features.commits,
   features.authors,
   features.lines_added,
   features.lines_deleted,
   features.churn,
   features.bug_commits,
   features.refactor_commits,
   features.feature_commits,
   features.lines_per_author,
   features.churn_per_commit,
   features.bug_ratio,
   features.days_active,
   features.commits_per_day,
   features.degradation_days.getD 0,
   features.net_lines.getD 0,
   features.code_stability.getD 0,
   features.is_high_churn_commit.getD 0,
   features.bug_commit_rate.getD 0,
   features.commits_squared.getD 0,
   features.author_concentration.getD 0,
   features.lines_per_commit.getD 0,
   features.churn_rate.getD 0,
   features.modification_ratio.getD 0,
   features.churn_per_author.getD 0,
   features.deletion_rate.getD 0,
   features.commit_density.getD 0]

/-- `RiskPrediction`: the spread `...feature` of the source is kept as a
`feature` component next to the three added fields. -/
structure RiskPrediction where
  feature : CommitData
  degradation_score : ℚ
  raw_prediction : ℚ
  risk_category : RiskCategory
deriving Repr

/-- `XGBoostPredictor.loadModel`'s feature-name fallback: when the
top-level `feature_names` is absent and the nested copy exists, the nested
copy is promoted.  (The surrounding file read and logging are I/O.) -/
def loadModel (bundled : XGBoostModel) : XGBoostModel :=
  if bundled.feature_names.isNone && bundled.nested_feature_names.isSome then
    { bundled with feature_names := bundled.nested_feature_names }
  else bundled

/-- `XGBoostPredictor.predict`.  `model` is the `this.model` field: `none`
before `loadModel`, `some m` after.  The outer `Option` models
nontermination of a tree descent (fuel exhaustion); the `Except` carries
the thrown usage error.  The source indexes `calibratedScores` and
`rawPredictions` by the position of `feature` in `features`; the `zip`
over the three equally long lists is the same pairing. -/
def predict (e sqrt : ℚ → ℚ) (fuel : ℕ) (model : Option XGBoostModel)
    (commitData : List CommitData) : Option (Except String (List RiskPrediction)) :=
  match model with
  | none => some (Except.error "Model not loaded. Call loadModel() first.")
  | some m =>
    let features := transform commitData
    match features.mapM (fun feature => predictSingle e fuel m (extractFeatureVector feature)) with
    | none => none
    | some rawPredictions =>
      let calibratedScores := calibratePredictions sqrt rawPredictions
      let predictions := (features.zip (calibratedScores.zip rawPredictions)).map
        (fun p =>
          { feature := p.1
            degradation_score := p.2.1
            raw_prediction := p.2.2
            risk_category := getRiskCategory p.2.1 })
      some (Except.ok predictions)

/-! ## Commit aggregator (GitCommitCollector) -/

/-- `FileStats` (file-stats interface).  The JS `Set<string>` of authors is
an insertion-ordered duplicate-free list; timestamps are epoch
milliseconds. -/
structure FileStats where
  lines_added : ℕ
  lines_deleted : ℕ
  commits : ℕ
  authors : List String
  bug_commits : ℕ
  feature_commits : ℕ
  refactor_commits : ℕ
  first_commit : ℤ
  last_commit : ℤ
deriving DecidableEq, Repr

/-- `Set.add`. -/
def addToSet (l : List String) (a : String) : List String :=
  if l.contains a then l else l ++ [a]

/-- `Map.get`: JS `Map` keeps insertion order and at most one entry per
key; it is modelled by an association list whose first hit is the
entry. -/
def mapGet {α : Type} (m : List (String × α)) (k : String) : Option α :=
  (m.find? (fun p => p.1 == k)).map (fun p => p.2)

/-- `Map.set`: update in place when the key exists (keeping its position),
append otherwise. -/
def mapSet {α : Type} (m : List (String × α)) (k : String) (v : α) : List (String × α) :=
  if (m.find? (fun p => p.1 == k)).isSome then
    m.map (fun p => if p.1 == k then (k, v) else p)
  else m ++ [(k, v)]

/-- `GitCommitCollector.updateOrCreateFileStats`. -/
def updateOrCreateFileStats (filepath : String) (fileStats : List (String × FileStats))
    (added removed : ℕ) (currentAuthor : String) (currentDate : ℤ)
    (isBugFix isFeature isRefactor : Bool) : List (String × FileStats) :=
  match mapGet fileStats filepath with
  | some existingStats =>
    mapSet fileStats filepath
      { existingStats with
        lines_added := existingStats.lines_added + added
        lines_deleted := existingStats.lines_deleted + removed
        commits := existingStats.commits + 1
        authors := addToSet existingStats.authors currentAuthor
        bug_commits := existingStats.bug_commits + (if isBugFix then 1 else 0)
        feature_commits := existingStats.feature_commits + (if isFeature then 1 else 0)
        refactor_commits := existingStats.refactor_commits + (if isRefactor then 1 else 0)
        first_commit :=
          if currentDate < existingStats.first_commit then currentDate
          else existingStats.first_commit
        last_commit :=
          if currentDate > existingStats.last_commit then currentDate
          else existingStats.last_commit }
  | none =>
    mapSet fileStats filepath
      { lines_added := added
        lines_deleted := removed
        commits := 1
        authors := [currentAuthor]
        bug_commits := if isBugFix then 1 else 0
        feature_commits := if isFeature then 1 else 0
        refactor_commits := if isRefactor then 1 else 0
        first_commit := currentDate
        last_commit := currentDate }

/-- Prefix test on character lists (structural, kernel-reducible). -/
def isPrefixOfList : List Char → List Char → Bool
  | [], _ => true
  | _ :: _, [] => false
  | p :: ps, c :: cs => decide (p = c) && isPrefixOfList ps cs

/-- JS `String.includes`: some position of `s` starts with `pat`. -/
def containsList (s pat : List Char) : Bool :=
  (List.range (s.length + 1)).any (fun i => isPrefixOfList pat (s.drop i))

/-- JS `String.includes` on strings. -/
def strIncludes (s sub : String) : Bool :=
  containsList s.toList sub.toList

/-- JS `String.split` with a nonempty separator: greedy left-to-right,
non-overlapping.  Fuel is the string length, consumed one character per
step, so it never runs out. -/
def jsSplitGo (sep : List Char) : ℕ → List Char → List Char → List (List Char)
  | _, acc, [] => [acc.reverse]
  | 0, acc, rest => [acc.reverse ++ rest]
  | fuel + 1, acc, c :: cs =>
    if !sep.isEmpty && isPrefixOfList sep (c :: cs) then
      acc.reverse :: jsSplitGo sep fuel [] ((c :: cs).drop sep.length)
    else
      jsSplitGo sep fuel (c :: acc) cs

def jsSplit (s sep : List Char) : List (List Char) :=
  jsSplitGo sep s.length [] s

/-- The regex class `\s`, restricted to the ASCII whitespace the git log
lines can contain. -/
def isJsSpace (c : Char) : Bool :=
  c = ' ' || c = '\t' || c = '\n' || c = '\r' || c = '\x0b' || c = '\x0c'

/-- JS `String.trim`. -/
def jsTrim (s : List Char) : List Char :=
  ((s.dropWhile isJsSpace).reverse.dropWhile isJsSpace).reverse

/-- JS `String.toLowerCase`, on the ASCII content relevant here. -/
def toLowerList (s : List Char) : List Char :=
  s.map Char.toLower

/-- The stat-line test `line.match(/^\d+\s+\d+\s+/)`: the four greedy runs
are over disjoint classes, so matching is the deterministic
digits-spaces-digits-spaces prefix decomposition, each run nonempty. -/
def isStatLine (l : List Char) : Bool :=
  let r1 := l.dropWhile Char.isDigit
  let r2 := r1.dropWhile isJsSpace
  let r3 := r2.dropWhile Char.isDigit
  !(l.takeWhile Char.isDigit).isEmpty &&
  !(r1.takeWhile isJsSpace).isEmpty &&
  !(r2.takeWhile Char.isDigit).isEmpty &&
  !(r3.takeWhile isJsSpace).isEmpty

/-- JS `parseInt` (radix 10): leading whitespace skipped, optional sign,
then the leading digit run; `none` models NaN. -/
def jsParseIntList (s : List Char) : Option ℤ :=
  let cs := s.dropWhile isJsSpace
  let signed : Bool × List Char :=
    match cs with
    | '-' :: rest => (true, rest)
    | '+' :: rest => (false, rest)
    | _ => (false, cs)
  let ds := signed.2.takeWhile Char.isDigit
  if ds.isEmpty then none
  else some (if signed.1 then -(natOfDigits ds : ℤ) else (natOfDigits ds : ℤ))

/-- `path.extname`: the suffix of the basename from its last dot, empty
when there is no dot past position 0.  (`'..'` is special-cased to empty
as in Node; further exotic corners are not exercised here.) -/
def extname (filepath : String) : String :=
  let base := (jsSplit filepath.toList ['/']).getLastD []
  if base = ['.', '.'] then ""
  else
    let dotIdxs := (List.range base.length).filter
      (fun i => decide (base.getD i ' ' = '.') && decide (0 < i))
    match dotIdxs.getLast? with
    | none => ""
    | some i => String.mk (base.drop i)

/-- The `sourceExtensions` allowlist, verbatim from the source. -/
def sourceExtensions : List String :=
  [".js", ".ts", ".jsx", ".tsx", ".mjs", ".cjs", ".vue", ".svelte",
   ".py", ".pyx", ".pyi", ".pyw",
   ".java", ".kt", ".kts", ".scala", ".groovy", ".gradle",
   ".c", ".cpp", ".cxx", ".cc", ".c++", ".h", ".hpp", ".hxx", ".hh", ".h++",
   ".cs", ".vb", ".fs", ".fsx", ".fsi",
   ".swift", ".m", ".mm", ".dart",
   ".php", ".rb", ".perl", ".pl", ".pm",
   ".go", ".rs", ".zig", ".nim", ".d",
   ".hs", ".lhs", ".elm", ".ml", ".mli", ".clj", ".cljs", ".cljc",
   ".r", ".R", ".jl", ".ipynb",
   ".sql", ".mysql", ".pgsql", ".plsql", ".tsql", ".ddl", ".dml",
   ".migration", ".up.sql", ".down.sql",
   ".cypher", ".gql", ".graphql",
   ".sh", ".bash", ".zsh", ".fish", ".ps1", ".bat", ".cmd",
   ".tf", ".hcl", ".yaml", ".yml", ".toml",
   ".sol", ".cairo", ".move", ".vy",
   ".lua", ".crystal", ".ex", ".exs", ".erl", ".hrl", ".pas", ".pp", ".inc",
   ".dpr", ".dpk", ".asm", ".s", ".S", ".rkt", ".scm", ".lisp", ".cl",
   ".erb", ".ejs", ".handlebars", ".hbs", ".mustache", ".twig",
   ".scss", ".sass", ".less", ".styl",
   ".asp", ".aspx", ".jsp", ".cfm", ".cfml",
   ".proto", ".thrift", ".avsc", ".avdl",
   ".sbt", ".mill", ".bazel", ".bzl", ".buck",
   ".podspec", ".gemspec", ".nuspec"]

/-- `GitCommitCollector.isSourceFile`. -/
def isSourceFile (filepath : String) : Bool :=
  sourceExtensions.contains (String.mk (toLowerList (extname filepath).toList))

/-- The backtracked split of `(X+)\s*=>\s*(X+)` over a string: the greedy
first group pushes the split to the last `=>` that still leaves a nonempty
remainder on each side, and keeps any whitespace before the arrow (both
captures are trimmed by every caller, so where `\s*` lands is
immaterial to the produced paths). -/
def splitAtLastArrow (cs : List Char) : Option (List Char × List Char) :=
  let valid := (List.range cs.length).filter (fun i =>
    decide (cs.getD i ' ' = '=') && decide (cs.getD (i + 1) ' ' = '>') &&
    decide (1 ≤ i) && decide (i + 2 < cs.length))
  match valid.getLast? with
  | none => none
  | some i => some (cs.take i, cs.drop (i + 2))

/-- Search for the pattern-1 regex `\{([^}]+)\s*=>\s*([^}]+)\}(.*)$`: a
match can only start at a `{`; since the groups exclude `}`, its closing
brace is the first `}` after that `{`; the candidate succeeds when the
enclosed run splits at an arrow, else the scan moves right. -/
def matchDirRename : List Char → Option (List Char × List Char × List Char)
  | [] => none
  | c :: rest =>
    if c = '\x7b' then
      let inner := rest.takeWhile (fun d => !(d = '\x7d'))
      (match rest.dropWhile (fun d => !(d = '\x7d')) with
       | _ :: after =>
         (match splitAtLastArrow inner with
          | some g => some (g.1, g.2, after)
          | none => matchDirRename rest)
       | [] => matchDirRename rest)
    else matchDirRename rest

/-- The pattern-2 regex `^\{(.+)\s*=>\s*(.+)\}$`: anchored, so the braces
are the first and last characters and the arrow split runs over
everything in between. -/
def matchWholeRename (cs : List Char) : Option (List Char × List Char) :=
  match cs with
  | c :: rest =>
    if c = '\x7b' && rest.getLast? = some '\x7d' then
      splitAtLastArrow rest.dropLast
    else none
  | [] => none

/-- Result of `parseRenameInfo`. -/
structure RenameInfo where
  currentPath : String
  oldPath : Option String
deriving DecidableEq, Repr

/-- `GitCommitCollector.parseRenameInfo`.  The three early `return null`
paths (empty path, `/dev/null`, embedded NUL, and the post-rename
`/dev/null` targets) are `none`; a pattern whose guard holds but whose
regex fails leaves the path untouched and falls through to the final
unparseable-leftover check, exactly as the `if`/`else if` chain does. -/
def parseRenameInfo (filepath : String) : Option RenameInfo :=
  if filepath = "" || filepath = "/dev/null" || containsList filepath.toList ['\x00'] then none
  else
    let cleanPath := jsTrim filepath.toList
    let arrow : List Char := [' ', '=', '>', ' ']
    let step : Option (List Char × Option (List Char)) :=
      if containsList cleanPath ['\x7b'] && containsList cleanPath ['\x7d'] &&
          containsList cleanPath arrow && !(isPrefixOfList ['\x7b'] cleanPath) then
        match matchDirRename cleanPath with
        | some g =>
          some (jsTrim g.2.1 ++ g.2.2, some (jsTrim g.1 ++ g.2.2))
        | none => some (cleanPath, none)
      else if isPrefixOfList ['\x7b'] cleanPath && cleanPath.getLast? = some '\x7d' &&
          containsList cleanPath arrow then
        match matchWholeRename cleanPath with
        | some g =>
          let newPath := jsTrim g.2
          if newPath = "/dev/null".toList then none
          else some (newPath, some (jsTrim g.1))
        | none => some (cleanPath, none)
      else if containsList cleanPath arrow then
        let parts := jsSplit cleanPath arrow
        if parts.length = 2 then
          let newPath := jsTrim (parts.getD 1 [])
          if newPath = "/dev/null".toList then none
          else some (newPath, some (jsTrim (parts.getD 0 [])))
        else some (cleanPath, none)
      else some (cleanPath, none)
    match step with
    | none => none
    | some p =>
      if containsList p.1 ['=', '>'] || containsList p.1 ['\x7b'] ||
          containsList p.1 ['\x7d'] then none
      else some { currentPath := String.mk p.1, oldPath := p.2.map String.mk }

/-- The mutable locals of the `fetchCommitData` loop. -/
structure CollectorState where
  pathMappings : List (String × String)
  fileStats : List (String × FileStats)
  allRepoAuthors : List String
  currentAuthor : String
  currentDate : ℤ
  isBugFix : Bool
  isFeature : Bool
  isRefactor : Bool
deriving Repr

/-- Loop state before the first line; `now` is the `new Date()` the
`currentDate` local starts from. -/
def initState (now : ℤ) : CollectorState :=
  { pathMappings := []
    fileStats := []
    allRepoAuthors := []
    currentAuthor := ""
    currentDate := now
    isBugFix := false
    isFeature := false
    isRefactor := false }

/-- The one-hop canonical-path resolution of the source: the first
`pathMappings` entry (insertion order) whose key equals the path gives the
target, and the scan breaks there. -/
def canonicalOf (pathMappings : List (String × String)) (currentPath : String) : String :=
  match pathMappings.find? (fun p => p.1 == currentPath) with
  | some p => p.2
  | none => currentPath

/-- One iteration of the `for (const line of lines)` loop of
`fetchCommitData`.  `existsFn` stands for `fs.existsSync` relative to the
repository root. -/
def processLine (onlyExistingFiles : Bool) (existsFn : String → Bool)
    (st : CollectorState) (line : String) : CollectorState :=
  if strIncludes line "|" then
    let parts := jsSplit line.toList ['|']
    let author := String.mk (parts.getD 1 [])
    let timestamp := parts.getD 2 []
    let messageLower := toLowerList (parts.getD 3 [])
    { st with
      currentAuthor := author
      allRepoAuthors := addToSet st.allRepoAuthors author
      currentDate := ((jsParseIntList timestamp).getD 0) * 1000
      isBugFix := ["fix", "bug", "patch", "hotfix", "bugfix"].any
        (fun kw => containsList messageLower kw.toList)
      isFeature := ["feat", "feature", "add", "implement"].any
        (fun kw => containsList messageLower kw.toList)
      isRefactor := ["refactor", "clean", "improve"].any
        (fun kw => containsList messageLower kw.toList) }
  else if isStatLine line.toList then
    let parts := jsSplit line.toList ['\t']
    if parts.length ≥ 3 then
      let added := ((jsParseIntList (parts.getD 0 [])).getD 0).toNat
      let removed := ((jsParseIntList (parts.getD 1 [])).getD 0).toNat
      let rawFilepath := String.mk (parts.getD 2 [])
      match parseRenameInfo rawFilepath with
      | none => st
      | some info =>
        let st1 :=
          match info.oldPath with
          | some op =>
            if op ≠ info.currentPath then
              { st with pathMappings := mapSet st.pathMappings op info.currentPath }
            else st
          | none => st
        let canonicalPath := canonicalOf st1.pathMappings info.currentPath
        if !(isSourceFile canonicalPath) then st1
        else if onlyExistingFiles && !(existsFn canonicalPath) then st1
        else
          { st1 with
            fileStats := updateOrCreateFileStats canonicalPath st1.fileStats added removed
              st1.currentAuthor st1.currentDate st1.isBugFix st1.isFeature st1.isRefactor }
    else st
  else st

/-- `daysActive` of the output conversion:
`Math.max(Math.ceil((last - first) / (24*60*60*1000)), 1)`. -/
def daysActive (stats : FileStats) : ℤ :=
  max ⌈((stats.last_commit - stats.first_commit : ℤ) : ℚ) / (24 * 60 * 60 * 1000)⌉ 1

/-- The record pushed onto `results` for one `fileStats` entry. -/
def toCommitDataRecord (repoName : String) (p : String × FileStats) : CommitData :=
  let filepath := p.1
  let stats := p.2
  let dA : ℤ := daysActive stats
  let numAuthors : ℕ := stats.authors.length
  let numCommits : ℕ := stats.commits
  let churn : ℕ := stats.lines_added + stats.lines_deleted
  { module := filepath
    filename := filepath
    repo_name := repoName
    commits := numCommits
    authors := numAuthors
    author_names := stats.authors
    lines_added := stats.lines_added
    lines_deleted := stats.lines_deleted
    churn := churn
    bug_commits := stats.bug_commits
    refactor_commits := stats.refactor_commits
    feature_commits := stats.feature_commits
    lines_per_author := if 0 < numAuthors then (stats.lines_added : ℚ) / numAuthors else 0
    churn_per_commit := if 0 < numCommits then (churn : ℚ) / numCommits else 0
    bug_ratio := if 0 < numCommits then (stats.bug_commits : ℚ) / numCommits else 0
    days_active := (dA : ℚ)
    commits_per_day := (numCommits : ℚ) / (dA : ℚ)
    created_at := stats.first_commit
    last_modified := stats.last_commit }

/-- `GitCommitCollector.fetchCommitData`, from the raw `git log` output
onward: the subprocess invocation and constructor-time validation are I/O
outside the model; `repoName` is `path.basename(this.repoPath)`. -/
def fetchCommitData (onlyExistingFiles : Bool) (existsFn : String → Bool)
    (repoName : String) (now : ℤ) (logOutput : String) : List CommitData :=
  let lines := ((jsSplit logOutput.toList ['\n']).map (fun l => String.mk (jsTrim l))).filter
    (fun l => l.length > 0)
  let final := lines.foldl (processLine onlyExistingFiles existsFn) (initState now)
  final.fileStats.map (toCommitDataRecord repoName)

/-! ## Theorems -/

attribute [local semireducible] Rat.add Rat.mul Rat.inv Rat.sub Rat.ofScientific

/-- The record of the vector-extraction order check: the twenty-six
extracted fields set to 1..26 in extraction order, the non-extracted
identification fields left blank. -/
def orderedRecord : CommitData :=
  { module := ""
    filename := ""
    repo_name := ""
    commits := 1
    authors := 2
    author_names := []
    lines_added := 3
    lines_deleted := 4
    churn := 5
    bug_commits := 6
    refactor_commits := 7
    feature_commits := 8
    lines_per_author := 9
    churn_per_commit := 10
    bug_ratio := 11
    days_active := 12
    commits_per_day := 13
    created_at := 0
    last_modified := 0
    degradation_days := some 14
    net_lines := some 15
    code_stability := some 16
    is_high_churn_commit := some 17
    bug_commit_rate := some 18
    commits_squared := some 19
    author_concentration := some 20
    lines_per_commit := some 21
    churn_rate := some 22
    modification_ratio := some 23
    churn_per_author := some 24
    deletion_rate := some 25
    commit_density := some 26 }

/-- C8: with the 26 fields set to 1..26 in document order,
`extractFeatureVector` returns exactly [1, 2, ..., 26]. -/
theorem extractFeatureVector_order :
    extractFeatureVector orderedRecord =
      [1, 2, 3, 4, 5, 6, 7, 8, 9, 10, 11, 12, 13, 14, 15, 16, 17, 18, 19, 20,
       21, 22, 23, 24, 25, 26] := by
  decide

/-- C3: the category of a calibrated score is determined by the four
half-open bands with inclusive upper boundaries: negative scores are
improved, scores in [0, 0.1] stable, in (0.1, 0.2] degraded, above 0.2
severely degraded; the bands cover every rational score and are disjoint,
so each score receives exactly one label. -/
theorem getRiskCategory_bands (s : ℚ) :
    (s < 0 → getRiskCategory s = .improved) ∧
    (0 ≤ s → s ≤ 1/10 → getRiskCategory s = .stable) ∧
    (1/10 < s → s ≤ 2/10 → getRiskCategory s = .degraded) ∧
    (2/10 < s → getRiskCategory s = .severely_degraded) := by
  unfold getRiskCategory
  refine ⟨fun h => if_pos h, fun h0 h1 => ?_, fun h1 h2 => ?_, fun h2 => ?_⟩
  · rw [if_neg (not_lt.mpr h0), if_pos h1]
  · have h0 : ¬ s < 0 := not_lt.mpr (le_trans (by norm_num) h1.le)
    rw [if_neg h0, if_neg (not_le.mpr h1), if_pos h2]
  · have h1 : (1 : ℚ)/10 < s := lt_trans (by norm_num) h2
    have h0 : ¬ s < 0 := not_lt.mpr (le_trans (by norm_num) h1.le)
    rw [if_neg h0, if_neg (not_le.mpr h1), if_neg (not_le.mpr h2)]

/-- Witness for C3: the boundary score 0.1 is categorized stable, through
the band theorem applied at 1/10. -/
theorem getRiskCategory_bands_witness : getRiskCategory (1/10) = .stable :=
  (getRiskCategory_bands (1/10)).2.1 (by norm_num) (by norm_num)

/-- C10: a cleaned log line that neither contains a pipe nor matches the
leading digits-whitespace-digits-whitespace stat pattern (for example the
dash columns git emits for binary files) leaves the whole loop state, and
in particular every `FileStats` entry, untouched. -/
theorem nonNumericLine_skipped (onlyExistingFiles : Bool) (existsFn : String → Bool)
    (st : CollectorState) (line : String)
    (hpipe : strIncludes line "|" = false)
    (hstat : isStatLine line.toList = false) :
    processLine onlyExistingFiles existsFn st line = st := by
  unfold processLine
  rw [hpipe, hstat]
  simp

/-- Witness for C10: the binary-file stat line of the claim is skipped. -/
theorem nonNumericLine_skipped_witness :
    processLine false (fun _ => true) (initState 0) "-\t-\timg.png" = initState 0 :=
  nonNumericLine_skipped false (fun _ => true) (initState 0) "-\t-\timg.png"
    (by decide) (by decide)

/-- A model with no base score and an empty ensemble. -/
def emptyModel : XGBoostModel :=
  { feature_names := none
    nested_feature_names := none
    base_score := none
    trees := some [] }

/-- A zero-tree model carrying a parseable bracket-wrapped base score. -/
def baseScoreModel : XGBoostModel :=
  { feature_names := none
    nested_feature_names := none
    base_score := some "[-1.201454E-2]"
    trees := none }

/-- Counterexample to C1: on a model with zero trees and default base
score 0.5, `predictSingle` returns 0.5 itself — the zero-trees branch
returns before the sigmoid line — whereas the claimed value, the logistic
function at 0.5, is not 0.5. -/
theorem predictSingle_zero_trees_cex :
    predictSingle (fun q => q) 1 emptyModel [] = some (1/2) ∧
    (1 : ℝ) / (1 + Real.exp (-(1/2))) ≠ (1 : ℝ)/2 := by
  refine ⟨by decide, fun h => ?_⟩
  have hp : (0 : ℝ) < Real.exp (-(1/2)) := Real.exp_pos _
  have hz : (1 : ℝ) + Real.exp (-(1/2)) ≠ 0 := by positivity
  rw [div_eq_div_iff hz (by norm_num : (2:ℝ) ≠ 0)] at h
  have he : Real.exp (-(1/2)) = Real.exp 0 := by rw [Real.exp_zero]; linarith
  have := Real.exp_eq_exp.mp he
  norm_num at this

/-- C1 (amended): with zero trees in the ensemble, `predictSingle` returns
the base score itself — the parsed bracket-wrapped literal, or 0.5 when
absent or unmatched — without applying the logistic transform. -/
theorem predictSingle_zero_trees (e : ℚ → ℚ) (fuel : ℕ) (m : XGBoostModel)
    (features : List ℚ) (h : m.trees.getD [] = []) :
    predictSingle e fuel m features = some (baseScore m) := by
  unfold predictSingle
  rw [h]
  simp

/-- Witness for the amended C1, exercising the base-score parser: the
literal "[-1.201454E-2]" is returned unchanged (as the exact rational
-1201454/10^8) on a model without trees. -/
theorem predictSingle_zero_trees_witness :
    predictSingle (fun q => q) 3 baseScoreModel [] = some (-600727/50000000) := by
  have h := predictSingle_zero_trees (fun q => q) 3 baseScoreModel [] (by decide)
  rw [h]
  decide

/-- C4: when every raw score of a nonempty batch is the same value, the
population variance is 0, `Math.sqrt 0 = 0` fails the `rawStd > 0` test,
and calibration maps every element to the reference mean -0.011. -/
theorem calibratePredictions_allEqual (sqrt : ℚ → ℚ) (hs : sqrt 0 = 0)
    (predictions : List ℚ) (c : ℚ) (hne : predictions ≠ [])
    (hall : ∀ p ∈ predictions, p = c) :
    calibratePredictions sqrt predictions =
      predictions.map (fun _ => (-11/1000 : ℚ)) := by
  have hlen0 : predictions.length ≠ 0 := fun h => hne (List.length_eq_zero.mp h)
  have hlenQ : ((predictions.length : ℚ)) ≠ 0 := Nat.cast_ne_zero.mpr hlen0
  have hmean : predictions.sum / (predictions.length : ℚ) = c := by
    rw [List.sum_eq_card_nsmul predictions c hall, nsmul_eq_mul]
    field_simp
  have hvar : (predictions.map
      (fun pred => (pred - predictions.sum / (predictions.length : ℚ)) ^ 2)).sum = 0 := by
    apply List.sum_eq_zero
    intro x hx
    obtain ⟨p, hp, rfl⟩ := List.mem_map.mp hx
    rw [hmean, hall p hp, sub_self]
    ring
  simp only [calibratePredictions]
  rw [hvar, zero_div, hs]
  simp

/-- Witness for C4: a concrete constant batch calibrates to the reference
mean everywhere. -/
theorem calibratePredictions_allEqual_witness :
    calibratePredictions (fun q => q) [2, 2] = [-11/1000, -11/1000] := by
  have h := calibratePredictions_allEqual (fun q => q) rfl [2, 2] 2 (by decide) (by decide)
  rw [h]
  decide

/-- The documented descent procedure as a relation, written from the
specified algorithm: at a node whose left-child entry is the leaf sentinel
-1 the result is that node's weight; otherwise the walk moves to the left
child exactly when the feature value at the split index is strictly below
the split threshold, and to the right child otherwise. -/
inductive TreeEval (t : XGBoostTree) (features : List ℚ) : ℕ → ℚ → Prop where
  | leaf (i : ℕ) (h : t.left_children.getD i 0 = -1) :
      TreeEval t features i (t.base_weights.getD i 0)
  | stepLeft (i : ℕ) (r : ℚ) (h : ¬ t.left_children.getD i 0 = -1)
      (hc : features.getD (t.split_indices.getD i 0) 0 < t.split_conditions.getD i 0)
      (hrec : TreeEval t features (t.left_children.getD i 0).toNat r) :
      TreeEval t features i r
  | stepRight (i : ℕ) (r : ℚ) (h : ¬ t.left_children.getD i 0 = -1)
      (hc : ¬ features.getD (t.split_indices.getD i 0) 0 < t.split_conditions.getD i 0)
      (hrec : TreeEval t features (t.right_children.getD i 0).toNat r) :
      TreeEval t features i r

lemma predictTreeAux_sound (t : XGBoostTree) (features : List ℚ) :
    ∀ (fuel nodeId : ℕ) (r : ℚ), predictTreeAux t features fuel nodeId = some r →
      TreeEval t features nodeId r := by
  intro fuel
  induction fuel with
  | zero =>
    intro nodeId r h
    exact absurd h (by simp [predictTreeAux])
  | succ k ih =>
    intro nodeId r h
    rw [predictTreeAux] at h
    split at h
    next hl =>
      cases Option.some.inj h
      exact TreeEval.leaf nodeId hl
    next hl =>
      split at h
      next hc => exact TreeEval.stepLeft nodeId r hl hc (ih _ r h)
      next hc => exact TreeEval.stepRight nodeId r hl hc (ih _ r h)

lemma predictTreeAux_complete (t : XGBoostTree) (features : List ℚ) :
    ∀ (nodeId : ℕ) (r : ℚ), TreeEval t features nodeId r →
      ∃ fuel, predictTreeAux t features fuel nodeId = some r := by
  intro nodeId r h
  induction h with
  | leaf i hl => exact ⟨1, by rw [predictTreeAux, if_pos hl]⟩
  | stepLeft i r hl hc _ ihrec =>
    obtain ⟨fuel, hf⟩ := ihrec
    exact ⟨fuel + 1, by rw [predictTreeAux, if_neg hl, if_pos hc]; exact hf⟩
  | stepRight i r hl hc _ ihrec =>
    obtain ⟨fuel, hf⟩ := ihrec
    exact ⟨fuel + 1, by rw [predictTreeAux, if_neg hl, if_neg hc]; exact hf⟩

/-- C5: the fueled embedding of `predictTree` and the documented descent
relation agree from the root: every value the loop returns is derivable by
the start-at-root, sentinel-leaf, strictly-less-goes-left procedure, and
every derivable value is returned given enough fuel. -/
theorem predictTree_follows_descent (t : XGBoostTree) (features : List ℚ) :
    (∀ (fuel : ℕ) (r : ℚ), predictTreeAux t features fuel 0 = some r →
      TreeEval t features 0 r) ∧
    (∀ r : ℚ, TreeEval t features 0 r →
      ∃ fuel, predictTreeAux t features fuel 0 = some r) :=
  ⟨fun fuel r h => predictTreeAux_sound t features fuel 0 r h,
   fun r h => predictTreeAux_complete t features 0 r h⟩

/-- A three-node stump: root splits on feature 0 at threshold 5, leaf
weights 1 (left) and 2 (right). -/
def sampleTree : XGBoostTree :=
  { base_weights := [0, 1, 2]
    left_children := [1, -1, -1]
    right_children := [2, -1, -1]
    split_indices := [0, 0, 0]
    split_conditions := [5, 0, 0] }

/-- Witness for C5: on the stump, feature value 3 descends left to
weight 1. -/
theorem predictTree_follows_descent_witness : TreeEval sampleTree [3] 0 1 :=
  (predictTree_follows_descent sampleTree [3]).1 10 1 (by decide)

/-- C7: calling `predict` with no loaded model returns the fixed usage
error and nothing else happens (in particular no implicit load: the stored
model is an input the call never changes); once a model is loaded,
`predict` never produces that error — every terminating run yields
predictions. -/
theorem predict_requires_loaded_model (e sqrt : ℚ → ℚ) (fuel : ℕ)
    (commitData : List CommitData) :
    predict e sqrt fuel none commitData =
      some (Except.error "Model not loaded. Call loadModel() first.") ∧
    ∀ (m : XGBoostModel) (s : String),
      predict e sqrt fuel (some m) commitData ≠ some (Except.error s) := by
  refine ⟨rfl, ?_⟩
  intro m s h
  cases hm : (transform commitData).mapM
      (fun feature => predictSingle e fuel m (extractFeatureVector feature)) with
  | none =>
    simp only [predict, hm] at h
    exact Option.noConfusion h
  | some rawPredictions =>
    simp only [predict, hm] at h
    exact Except.noConfusion (Option.some.inj h)

/-- Witness for C7: the unloaded scorer fails with the fixed message on an
empty batch, and the loaded empty model cannot produce the usage error. -/
theorem predict_requires_loaded_model_witness :
    predict (fun q => q) (fun q => q) 0 none [] =
      some (Except.error "Model not loaded. Call loadModel() first.") ∧
    predict (fun q => q) (fun q => q) 0 (some emptyModel) [] ≠
      some (Except.error "Model not loaded. Call loadModel() first.") :=
  ⟨(predict_requires_loaded_model (fun q => q) (fun q => q) 0 []).1,
   (predict_requires_loaded_model (fun q => q) (fun q => q) 0 []).2 emptyModel _⟩

/-- C6: every record the aggregator emits has `days_active` equal to the
ceiling of the commit-timestamp span in whole days floored at 1 — hence
always at least 1, also when first and last commit coincide — and
`commits_per_day` exactly equal to the commit count divided by that
`days_active`. -/
theorem emitted_days_active_floor (oe : Bool) (ex : String → Bool) (repoName : String)
    (now : ℤ) (logOutput : String) (r : CommitData)
    (hr : r ∈ fetchCommitData oe ex repoName now logOutput) :
    1 ≤ r.days_active ∧
    r.days_active =
      ((max ⌈((r.last_modified - r.created_at : ℤ) : ℚ) / (24 * 60 * 60 * 1000)⌉ 1 : ℤ) : ℚ) ∧
    r.commits_per_day = r.commits / r.days_active := by
  simp only [fetchCommitData] at hr
  obtain ⟨p, hp, rfl⟩ := List.mem_map.mp hr
  refine ⟨?_, ?_, ?_⟩
  · show (1 : ℚ) ≤ ((daysActive p.2 : ℤ) : ℚ)
    have h1 : (1 : ℤ) ≤ daysActive p.2 := le_max_right _ _
    exact_mod_cast h1
  · show ((daysActive p.2 : ℤ) : ℚ) = _
    simp only [toCommitDataRecord, daysActive]
  · rfl

/-- The empty accumulator record used as a list default. -/
def blankStats : FileStats :=
  { lines_added := 0
    lines_deleted := 0
    commits := 0
    authors := []
    bug_commits := 0
    feature_commits := 0
    refactor_commits := 0
    first_commit := 0
    last_commit := 0 }

/-- A one-commit, one-file log. -/
def singleLog : String := "h1|u@x|100|edit\n3\t1\tfoo.ts"

/-- Witness for C6: the single emitted record of a one-commit log has one
active day and one commit per day. -/
theorem emitted_days_active_floor_witness :
    1 ≤ ((fetchCommitData false (fun _ => true) "repo" 0 singleLog).headD
        (toCommitDataRecord "" ("", blankStats))).days_active ∧
    ((fetchCommitData false (fun _ => true) "repo" 0 singleLog).headD
        (toCommitDataRecord "" ("", blankStats))).days_active =
      ((max ⌈((((fetchCommitData false (fun _ => true) "repo" 0 singleLog).headD
            (toCommitDataRecord "" ("", blankStats))).last_modified -
          ((fetchCommitData false (fun _ => true) "repo" 0 singleLog).headD
            (toCommitDataRecord "" ("", blankStats))).created_at : ℤ) : ℚ) /
          (24 * 60 * 60 * 1000)⌉ 1 : ℤ) : ℚ) ∧
    ((fetchCommitData false (fun _ => true) "repo" 0 singleLog).headD
        (toCommitDataRecord "" ("", blankStats))).commits_per_day =
      ((fetchCommitData false (fun _ => true) "repo" 0 singleLog).headD
        (toCommitDataRecord "" ("", blankStats))).commits /
      ((fetchCommitData false (fun _ => true) "repo" 0 singleLog).headD
        (toCommitDataRecord "" ("", blankStats))).days_active :=
  emitted_days_active_floor false (fun _ => true) "repo" 0 singleLog _ (by decide)

/-- The aggregation invariant: an entry's first-commit timestamp never
exceeds its last-commit timestamp. -/
def FirstLeLast (p : String × FileStats) : Prop :=
  p.2.first_commit ≤ p.2.last_commit

lemma mapSet_pred {α : Type} (P : String × α → Prop) (m : List (String × α)) (k : String)
    (v : α) (hm : ∀ p ∈ m, P p) (hv : P (k, v)) : ∀ p ∈ mapSet m k v, P p := by
  intro q hq
  unfold mapSet at hq
  split at hq
  · obtain ⟨p0, hp0, rfl⟩ := List.mem_map.mp hq
    split
    · exact hv
    · exact hm p0 hp0
  · rcases List.mem_append.mp hq with hq | hq
    · exact hm q hq
    · rw [List.mem_singleton.mp hq]
      exact hv

lemma mapGet_some_mem {α : Type} (m : List (String × α)) (k : String) (v : α)
    (hg : mapGet m k = some v) : ∃ p ∈ m, p.2 = v := by
  unfold mapGet at hg
  cases hf : m.find? (fun p => p.1 == k) with
  | none => rw [hf] at hg; exact absurd hg (by simp)
  | some pr =>
    rw [hf] at hg
    exact ⟨pr, List.mem_of_find?_eq_some hf, Option.some.inj hg⟩

lemma updateOrCreateFileStats_inv (filepath : String) (fileStats : List (String × FileStats))
    (added removed : ℕ) (currentAuthor : String) (currentDate : ℤ)
    (isBugFix isFeature isRefactor : Bool)
    (h : ∀ p ∈ fileStats, FirstLeLast p) :
    ∀ p ∈ updateOrCreateFileStats filepath fileStats added removed currentAuthor currentDate
        isBugFix isFeature isRefactor, FirstLeLast p := by
  unfold updateOrCreateFileStats
  cases hg : mapGet fileStats filepath with
  | some existingStats =>
    obtain ⟨pr, hmem, hpr2⟩ := mapGet_some_mem fileStats filepath existingStats hg
    have hinv : existingStats.first_commit ≤ existingStats.last_commit := hpr2 ▸ h pr hmem
    refine mapSet_pred FirstLeLast fileStats filepath _ h ?_
    unfold FirstLeLast
    dsimp only
    split_ifs <;> omega
  | none =>
    exact mapSet_pred FirstLeLast fileStats filepath _ h (le_refl currentDate)

lemma processLine_inv (onlyExistingFiles : Bool) (existsFn : String → Bool)
    (st : CollectorState) (line : String)
    (h : ∀ p ∈ st.fileStats, FirstLeLast p) :
    ∀ p ∈ (processLine onlyExistingFiles existsFn st line).fileStats, FirstLeLast p := by
  simp only [processLine]
  split
  · exact h
  · split
    · split
      · split
        · exact h
        · rename_i info _heq
          obtain ⟨cp, op⟩ := info
          cases op with
          | none =>
            dsimp only
            split
            · exact h
            · split
              · exact h
              · exact updateOrCreateFileStats_inv _ _ _ _ _ _ _ _ _ h
          | some op =>
            dsimp only
            by_cases hop : op ≠ cp
            · rw [if_pos hop]
              dsimp only
              split
              · exact h
              · split
                · exact h
                · exact updateOrCreateFileStats_inv _ _ _ _ _ _ _ _ _ h
            · rw [if_neg hop]
              split
              · exact h
              · split
                · exact h
                · exact updateOrCreateFileStats_inv _ _ _ _ _ _ _ _ _ h
      · exact h
    · exact h

/-- C9: `first_commit ≤ last_commit` holds for every entry of the
aggregation map at all times: `updateOrCreateFileStats` establishes it on
creation and preserves it on every fold, and consequently the whole line
loop preserves it from any state, whatever order timestamps arrive in. -/
theorem fileStats_first_le_last :
    (∀ (filepath : String) (fileStats : List (String × FileStats)) (added removed : ℕ)
        (currentAuthor : String) (currentDate : ℤ) (isBugFix isFeature isRefactor : Bool),
      (∀ p ∈ fileStats, FirstLeLast p) →
      ∀ p ∈ updateOrCreateFileStats filepath fileStats added removed currentAuthor currentDate
          isBugFix isFeature isRefactor, FirstLeLast p) ∧
    (∀ (onlyExistingFiles : Bool) (existsFn : String → Bool) (lines : List String)
        (st : CollectorState),
      (∀ p ∈ st.fileStats, FirstLeLast p) →
      ∀ p ∈ (lines.foldl (processLine onlyExistingFiles existsFn) st).fileStats, FirstLeLast p) := by
  constructor
  · exact updateOrCreateFileStats_inv
  · intro oe ex lines
    induction lines with
    | nil => intro st h; simpa using h
    | cons l ls ih =>
      intro st h
      rw [List.foldl_cons]
      exact ih _ (processLine_inv oe ex st l h)

/-- Witness for C9: folding one commit into an empty map yields an entry
with equal first and last timestamps, hence the invariant. -/
theorem fileStats_first_le_last_witness :
    FirstLeLast ("a.ts",
      { lines_added := 1
        lines_deleted := 2
        commits := 1
        authors := ["x"]
        bug_commits := 1
        feature_commits := 0
        refactor_commits := 0
        first_commit := 5
        last_commit := 5 }) :=
  (fileStats_first_le_last.1 "a.ts" [] 1 2 "x" 5 true false false (by simp)) _ (by decide)

/-- A newest-first log with a two-hop rename chain: the file starts life
as a.ts, is renamed to b.ts, then to c.ts, with one ordinary commit
touching a.ts before any rename. -/
def renameChainLog : String :=
  "h3|u@x|300|rename2\n1\t1\tb.ts => c.ts\nh2|u@x|200|rename1\n1\t1\ta.ts => b.ts\nh1|u@x|100|edit\n5\t2\ta.ts"

/-- Counterexample to C2: on the a.ts to b.ts to c.ts history, the commit
that touches a.ts directly is resolved only one hop (to b.ts) and its
statistics are emitted under b.ts, so the output is not a single
consolidated c.ts record. -/
theorem rename_chain_cex :
    ((fetchCommitData false (fun _ => true) "repo" 0 renameChainLog).map
      (fun r => (r.module, r.commits))) = [("c.ts", 2), ("b.ts", 1)] ∧
    ((fetchCommitData false (fun _ => true) "repo" 0 renameChainLog).map
      (fun r => r.module)) ≠ ["c.ts"] := by
  constructor
  · decide
  · decide

/-- C2 (amended): rename resolution is single-hop.  On an A to B to C
chain, the statistics of the two rename commits accumulate under C (the
B-hop resolves through the recorded B-to-C mapping), while the commit
touching the oldest path A resolves only to B and is emitted as a separate
B record. -/
theorem rename_chain_one_hop :
    ((fetchCommitData false (fun _ => true) "repo" 0 renameChainLog).map
      (fun r => (r.module, r.commits, r.lines_added, r.lines_deleted))) =
      [("c.ts", 2, 2, 2), ("b.ts", 1, 5, 2)] := by
  decide

end Maintsight
